import Mathlib

/-!
Verification of the sshx session core (`crates/sshx-server/src/session.rs` and
`crates/sshx-server/src/web.rs`).

The Rust code is shallowly embedded as follows:
* `&str` / `String` values become `List Nat` of their UTF-8 bytes; Rust's
  `str::is_char_boundary` and `str::get(start..)` are modelled byte-wise.
* `u32` / `u64` become `Nat`; the one place where wrap-around is reachable and
  observable — the `AtomicU32::fetch_add` in `Session::next_id` — keeps the
  explicit `% 2^32` of the machine type.
* `tokio::time::Instant` timestamps become a `Nat` argument (`now`, the number
  of elapsed milliseconds since the session's `created` instant) threaded into
  each operation that reads the clock.
* `DashMap<u32, State>` becomes an association list; `Notify::notify_waiters`
  becomes a counter `notified` incremented on each wake.
* `anyhow::Result` becomes `Except SessionError`; a Rust `bail!`/`?` exit
  happens before any mutation, so an `.error` result always leaves the caller's
  state unchanged.
-/

deriving instance DecidableEq for Except

namespace Sshx

/-- `WsWinsize` from web.rs: window position and size. -/
structure WsWinsize where
  x : Int
  y : Int
  rows : Nat
  cols : Nat
deriving Repr, DecidableEq

/-- `impl Default for WsWinsize` in web.rs: `{ x: 0, y: 0, rows: 24, cols: 80 }`. -/
def WsWinsize.default : WsWinsize := { x := 0, y := 0, rows := 24, cols := 80 }

/-- `State` from session.rs: per-shell record. `data` entries pair the relative
timestamp in ms with the fragment's UTF-8 bytes. `notified` counts the calls to
`notify.notify_waiters()` on this shell (our model of the wake primitive). -/
structure ShellState where
  seqnum : Nat
  data : List (Nat × List Nat)
  closed : Bool
  notified : Nat
deriving Repr, DecidableEq

/-- `State::default()`: fresh shell. -/
def ShellState.default : ShellState :=
  { seqnum := 0, data := [], closed := false, notified := 0 }

/-- `ServerMessage` payloads enqueued for the upstream agent (the cases used by
the gateway in web.rs). -/
inductive ServerMessage where
  | createShell (id : Nat)
  | closeShell (id : Nat)
  | resize (id rows cols : Nat)
  | input (id : Nat) (data : List Nat)
deriving Repr, DecidableEq

/-- Error taxonomy of the session operations (§7 of the design): each
constructor corresponds to one `bail!`/`context` exit in session.rs. -/
inductive SessionError where
  | alreadyExists (id : Nat)
  | notFound (id : Nat)
  | closed (id : Nat)
  | badEncoding
deriving Repr, DecidableEq

/-- `Session` from session.rs. `shells` is the `DashMap`, `counter` the atomic
id counter (a `u32`, hence kept below `2^32`), `updated` the last-access
instant in ms, `shells_view` the value inside the `watch` channel `source`,
and `outbound` the FIFO of `ServerMessage`s buffered for the agent. -/
structure Session where
  shells : List (Nat × ShellState)
  counter : Nat
  updated : Nat
  shells_view : List (Nat × WsWinsize)
  outbound : List ServerMessage
deriving Repr, DecidableEq

/-- `Session::new()`: empty map, counter starts at 1, timestamps at the
creation instant (0 ms), empty view and queue. -/
def Session.new : Session :=
  { shells := [], counter := 1, updated := 0, shells_view := [], outbound := [] }

/-- Lookup in the shell map (`self.shells.get(&id)`). -/
def lookupShell : List (Nat × ShellState) → Nat → Option ShellState
  | [], _ => none
  | (k, v) :: rest, id => if k = id then some v else lookupShell rest id

/-- Write back the entry for `id` (the effect of mutating through the
`DashMap` guard returned by `get_mut`). -/
def updateShell (shells : List (Nat × ShellState)) (id : Nat) (st : ShellState) :
    List (Nat × ShellState) :=
  shells.map fun p => if p.1 = id then (id, st) else p

/-- `str::is_char_boundary` on the UTF-8 bytes: true at 0 and at the length,
and otherwise iff the byte at `i` is not a continuation byte `0x80..=0xBF`. -/
def is_char_boundary (s : List Nat) (i : Nat) : Bool :=
  if i = 0 then true
  else
    match s.get? i with
    | some b => decide (b < 128 ∨ 192 ≤ b)
    | none => decide (i = s.length)

/-- `str::get(i..)`: the byte suffix from `i`, provided `i` is a character
boundary; `none` otherwise. -/
def strGetFrom (s : List Nat) (i : Nat) : Option (List Nat) :=
  if is_char_boundary s i then some (s.drop i) else none

/-- `Session::next_id`: `counter.fetch_add(1, Relaxed)` returns the previous
value and stores the incremented one; `AtomicU32` arithmetic wraps mod `2^32`. -/
def Session.next_id (s : Session) : Nat × Session :=
  (s.counter, { s with counter := (s.counter + 1) % 2 ^ 32 })

/-- `Session::add_shell`: fail with AlreadyExists when the id is occupied,
otherwise insert a default shell record and push `(id, WsWinsize::default())`
onto the view. -/
def Session.add_shell (s : Session) (id : Nat) : Except SessionError Session :=
  match lookupShell s.shells id with
  | some _ => .error (.alreadyExists id)
  | none =>
    .ok { s with
      shells := s.shells ++ [(id, ShellState.default)]
      shells_view := s.shells_view ++ [(id, WsWinsize.default)] }

/-- `Session::close_shell`: open shell → mark closed, wake waiters, retain
only other ids in the view; already closed → no-op success; absent → NotFound. -/
def Session.close_shell (s : Session) (id : Nat) : Except SessionError Session :=
  match lookupShell s.shells id with
  | none => .error (.notFound id)
  | some st =>
    if st.closed then .ok s
    else
      .ok { s with
        shells := updateShell s.shells id
          { st with closed := true, notified := st.notified + 1 }
        shells_view := s.shells_view.filter fun p => p.1 != id }

/-- The `source.send_modify` body of `Session::move_shell`: remove the first
view entry for `id` (if any) and push it at the end, with the supplied size or
the previous one when `none`. -/
def moveToEnd (view : List (Nat × WsWinsize)) (id : Nat) (w : Option WsWinsize) :
    List (Nat × WsWinsize) :=
  match view with
  | [] => []
  | (sid, sz) :: rest =>
    if sid = id then rest ++ [(id, w.getD sz)]
    else (sid, sz) :: moveToEnd rest id w

/-- `Session::move_shell`: `get_shell_mut` errors (NotFound / Closed), then the
view is reordered by `moveToEnd`. -/
def Session.move_shell (s : Session) (id : Nat) (w : Option WsWinsize) :
    Except SessionError Session :=
  match lookupShell s.shells id with
  | none => .error (.notFound id)
  | some st =>
    if st.closed then .error (.closed id)
    else .ok { s with shells_view := moveToEnd s.shells_view id w }

/-- `Session::add_data`: `get_shell_mut` errors first; then the ingestion rule:
when `seq ≤ seqnum < seq + len`, take the byte suffix from `seqnum - seq`
(BadEncoding when that is not a character boundary), append it as one fragment
stamped `now`, advance `seqnum` by its length and wake waiters; otherwise
return success without touching anything. -/
def Session.add_data (s : Session) (id : Nat) (bytes : List Nat) (seq now : Nat) :
    Except SessionError Session :=
  match lookupShell s.shells id with
  | none => .error (.notFound id)
  | some st =>
    if st.closed then .error (.closed id)
    else if seq ≤ st.seqnum ∧ st.seqnum < seq + bytes.length then
      match strGetFrom bytes (st.seqnum - seq) with
      | none => .error .badEncoding
      | some segment =>
        .ok { s with
          shells := updateShell s.shells id
            { st with
              data := st.data ++ [(now, segment)]
              seqnum := st.seqnum + segment.length
              notified := st.notified + 1 } }
    else .ok s

/-- `Session::access`: refresh `updated` to the current instant. -/
def Session.access (s : Session) (now : Nat) : Session :=
  { s with updated := now }

/-- One `add_data` call against a single shell: the arguments of the call and
the instant at which it happens. -/
structure DataCall where
  bytes : List Nat
  seq : Nat
  now : Nat
deriving Repr, DecidableEq

/-- The body of `Session::add_data` acting on one shell record (the code
between taking the `get_mut` guard and dropping it). -/
def addDataShell (st : ShellState) (c : DataCall) : Except SessionError ShellState :=
  if c.seq ≤ st.seqnum ∧ st.seqnum < c.seq + c.bytes.length then
    match strGetFrom c.bytes (st.seqnum - c.seq) with
    | none => .error .badEncoding
    | some segment =>
      .ok { st with
        data := st.data ++ [(c.now, segment)]
        seqnum := st.seqnum + segment.length
        notified := st.notified + 1 }
  else .ok st

/-- Effect of one `add_data` call on a shell: on error (BadEncoding) the code
has not mutated anything, so the state is kept. -/
def stepData (st : ShellState) (c : DataCall) : ShellState :=
  match addDataShell st c with
  | .ok st' => st'
  | .error _ => st

/-- Run a schedule of `add_data` calls against one shell. -/
def runCalls (st : ShellState) : List DataCall → ShellState
  | [] => st
  | c :: cs => runCalls (stepData st c) cs

/-- Concatenation of the fragment bytes of a shell's `data` log. -/
def fragConcat : List (Nat × List Nat) → List Nat
  | [] => []
  | f :: rest => f.2 ++ fragConcat rest

/-- A session operation, as invoked by the gateway or the agent transport. -/
inductive Op where
  | addShell (id : Nat)
  | closeShell (id : Nat)
  | moveShell (id : Nat) (w : Option WsWinsize)
  | addData (id : Nat) (bytes : List Nat) (seq now : Nat)
  | access (now : Nat)
  | nextId
deriving Repr, DecidableEq

/-- A failed operation has performed no mutation (every `bail!` in session.rs
fires before the first write), so the session is kept on error. -/
def orUnchanged (s : Session) : Except SessionError Session → Session
  | .ok s' => s'
  | .error _ => s

/-- Apply one operation to the session. -/
def applyOp (s : Session) : Op → Session
  | .addShell id => orUnchanged s (s.add_shell id)
  | .closeShell id => orUnchanged s (s.close_shell id)
  | .moveShell id w => orUnchanged s (s.move_shell id w)
  | .addData id bytes seq now => orUnchanged s (s.add_data id bytes seq now)
  | .access now => s.access now
  | .nextId => (s.next_id).2

/-- Run a list of operations in order. -/
def runOps (s : Session) : List Op → Session
  | [] => s
  | op :: ops => runOps (applyOp s op) ops

/-- `WsClient` from web.rs: a frame sent by a browser client. -/
inductive WsClient where
  | create
  | close (id : Nat)
  | move (id : Nat) (winsize : Option WsWinsize)
  | data (id : Nat) (bytes : List Nat)
  | subscribe (id : Nat) (chunknum : Nat)
deriving Repr, DecidableEq

/-- `WsServer` from web.rs: a frame sent to a browser client (the `Error`
payload carries the failed operation's error instead of its rendered string). -/
inductive WsServer where
  | shells (v : List (Nat × WsWinsize))
  | chunks (id : Nat) (c : List (Nat × List Nat))
  | terminated
  | wsError (e : SessionError)
deriving Repr, DecidableEq

/-- Per-connection gateway state in `handle_socket` (web.rs): the shared
session, the `subscribed` id set, the frames sent to this client, and the
spawned chunk-subscription tasks as `(id, chunknum)` pairs. -/
structure Gateway where
  session : Session
  subscribed : List Nat
  sent : List WsServer
  subscriptions : List (Nat × Nat)
deriving Repr, DecidableEq

/-- The `match msg` dispatch of `handle_socket` in web.rs, handling one decoded
inbound client frame at instant `now`. -/
def handleClientMsg (g : Gateway) (msg : WsClient) (now : Nat) : Gateway :=
  match msg with
  | .create =>
    let (id, s) := g.session.next_id
    { g with session := { s with outbound := s.outbound ++ [.createShell id] } }
  | .close id =>
    { g with session :=
        { g.session with outbound := g.session.outbound ++ [.closeShell id] } }
  | .move id winsize =>
    match g.session.move_shell id winsize with
    | .error e => { g with sent := g.sent ++ [.wsError e] }
    | .ok s =>
      match winsize with
      | some w =>
        { g with session := { s with outbound := s.outbound ++ [.resize id w.rows w.cols] } }
      | none => { g with session := s }
  | .data id bytes =>
    { g with session :=
        { g.session with outbound := g.session.outbound ++ [.input id bytes] } }
  | .subscribe id chunknum =>
    if id ∈ g.subscribed then g
    else
      { g with
        subscribed := g.subscribed ++ [id]
        subscriptions := g.subscriptions ++ [(id, chunknum)] }

/-- `c.bytes` is the slice `[seq, seq + len)` of the ideal stream `S` (the
agent's full output): this is what makes the union of the submitted intervals
well defined. -/
def IsSlice (S : List Nat) (c : DataCall) : Prop :=
  c.bytes = (S.drop c.seq).take c.bytes.length ∧ c.seq + c.bytes.length ≤ S.length

instance (S : List Nat) (c : DataCall) : Decidable (IsSlice S c) := by
  unfold IsSlice; infer_instance

/-- A call is a safe replay candidate at state `st`: it is either stale
(every byte already ingested) or it would be accepted cleanly (in range and on
a character boundary). Gap calls and BadEncoding calls are excluded. -/
def safeAtB (st : ShellState) (c : DataCall) : Bool :=
  decide (c.seq + c.bytes.length ≤ st.seqnum) ||
    (decide (c.seq ≤ st.seqnum) && decide (st.seqnum < c.seq + c.bytes.length) &&
      is_char_boundary c.bytes (st.seqnum - c.seq))

/-- Every call of the schedule is safe at the state where it executes. -/
def safeRun (st : ShellState) : List DataCall → Bool
  | [] => true
  | c :: cs => safeAtB st c && safeRun (stepData st c) cs

/-- The session after `n` calls to `next_id`, starting from `Session.new`. -/
def sessionAfterCalls : Nat → Session
  | 0 => Session.new
  | n + 1 => ((sessionAfterCalls n).next_id).2

/-- The value returned by call number `k + 1` to `next_id` (0-indexed `k`). -/
def nthIdReturned (k : Nat) : Nat := ((sessionAfterCalls k).next_id).1

/-- A predicate on shell records holding for every shell of the session. -/
def shellsInv (P : ShellState → Prop) (s : Session) : Prop :=
  ∀ p ∈ s.shells, P p.2

/-- Invariant 1 of the data model: the concatenated fragments have length
exactly `seqnum`. -/
def fragLenOk (st : ShellState) : Prop :=
  (fragConcat st.data).length = st.seqnum

/-- Every stored fragment is non-empty. -/
def fragsNonempty (st : ShellState) : Prop :=
  ∀ f ∈ st.data, f.2 ≠ []

/-- UTF-8 bytes of `"hello world"`. -/
def hwBytes : List Nat := [104, 101, 108, 108, 111, 32, 119, 111, 114, 108, 100]

/-- UTF-8 bytes of `"world"`. -/
def wBytes : List Nat := [119, 111, 114, 108, 100]

/-- A session holding one fresh shell with id 1. -/
def demoShell1 : Session := runOps Session.new [.addShell 1]

/-- A session whose shell 1 has ingested one byte (`"a"`), so `seqnum = 1`. -/
def sessA : Session := runOps Session.new [.addShell 1, .addData 1 [97] 0 0]

/-- A session holding three fresh shells 1, 2, 3 (view `[1, 2, 3]`). -/
def demo3 : Session := runOps Session.new [.addShell 1, .addShell 2, .addShell 3]

/-- `demo3` after closing shell 1. -/
def demo3closed : Session := applyOp demo3 (.closeShell 1)

/-- A gateway freshly attached to a new session. -/
def gw0 : Gateway :=
  { session := Session.new, subscribed := [], sent := [], subscriptions := [] }

/-! ### Helper lemmas -/

theorem lookupShell_mem {l : List (Nat × ShellState)} {id : Nat} {st : ShellState}
    (h : lookupShell l id = some st) : (id, st) ∈ l := by
  induction l with
  | nil => simp [lookupShell] at h
  | cons p rest ih =>
    obtain ⟨k, v⟩ := p
    by_cases hk : k = id
    · subst hk
      simp [lookupShell] at h
      simp [h]
    · simp [lookupShell, hk] at h
      exact List.mem_cons_of_mem _ (ih h)

theorem mem_updateShell {l : List (Nat × ShellState)} {id : Nat} {st' : ShellState}
    {q : Nat × ShellState} (h : q ∈ updateShell l id st') : q ∈ l ∨ q = (id, st') := by
  unfold updateShell at h
  obtain ⟨p, hp, hfp⟩ := List.mem_map.mp h
  by_cases hk : p.1 = id
  · simp [hk] at hfp
    exact Or.inr hfp.symm
  · simp [hk] at hfp
    exact Or.inl (hfp ▸ hp)

theorem fragConcat_append (a b : List (Nat × List Nat)) :
    fragConcat (a ++ b) = fragConcat a ++ fragConcat b := by
  induction a with
  | nil => simp [fragConcat]
  | cons f rest ih => simp [fragConcat, ih]

theorem strGetFrom_some {s : List Nat} {i : Nat} {seg : List Nat}
    (h : strGetFrom s i = some seg) : seg = s.drop i := by
  unfold strGetFrom at h
  by_cases hb : is_char_boundary s i
  · simp [hb] at h; exact h.symm
  · simp [hb] at h

theorem strGetFrom_boundary {s : List Nat} {i : Nat}
    (hb : is_char_boundary s i = true) : strGetFrom s i = some (s.drop i) := by
  simp [strGetFrom, hb]

theorem strGetFrom_not_boundary {s : List Nat} {i : Nat}
    (hb : is_char_boundary s i = false) : strGetFrom s i = none := by
  simp [strGetFrom, hb]

theorem stepData_not_in_range {st : ShellState} {c : DataCall}
    (h : ¬(c.seq ≤ st.seqnum ∧ st.seqnum < c.seq + c.bytes.length)) :
    stepData st c = st := by
  simp [stepData, addDataShell, h]

theorem stepData_bad_boundary {st : ShellState} {c : DataCall}
    (h : c.seq ≤ st.seqnum ∧ st.seqnum < c.seq + c.bytes.length)
    (hb : is_char_boundary c.bytes (st.seqnum - c.seq) = false) :
    stepData st c = st := by
  simp [stepData, addDataShell, h, strGetFrom_not_boundary hb]

theorem stepData_accept {st : ShellState} {c : DataCall}
    (h1 : c.seq ≤ st.seqnum) (h2 : st.seqnum < c.seq + c.bytes.length)
    (hb : is_char_boundary c.bytes (st.seqnum - c.seq) = true) :
    stepData st c =
      { st with
        data := st.data ++ [(c.now, c.bytes.drop (st.seqnum - c.seq))]
        seqnum := st.seqnum + (c.bytes.drop (st.seqnum - c.seq)).length
        notified := st.notified + 1 } := by
  simp [stepData, addDataShell, h1, h2, strGetFrom_boundary hb]

theorem seqnum_le_stepData (st : ShellState) (c : DataCall) :
    st.seqnum ≤ (stepData st c).seqnum := by
  by_cases h : c.seq ≤ st.seqnum ∧ st.seqnum < c.seq + c.bytes.length
  · cases hb : is_char_boundary c.bytes (st.seqnum - c.seq) with
    | false => rw [stepData_bad_boundary h hb]
    | true => rw [stepData_accept h.1 h.2 hb]; exact Nat.le_add_right _ _
  · rw [stepData_not_in_range h]

theorem seqnum_le_runCalls (st : ShellState) (cs : List DataCall) :
    st.seqnum ≤ (runCalls st cs).seqnum := by
  induction cs generalizing st with
  | nil => exact Nat.le_refl _
  | cons c cs ih =>
    exact Nat.le_trans (seqnum_le_stepData st c) (ih (stepData st c))

theorem runCalls_append (st : ShellState) (a b : List DataCall) :
    runCalls st (a ++ b) = runCalls (runCalls st a) b := by
  induction a generalizing st with
  | nil => rfl
  | cons c cs ih => simp [runCalls, ih]

theorem stepData_accept_seqnum {st : ShellState} {c : DataCall}
    (h1 : c.seq ≤ st.seqnum) (h2 : st.seqnum < c.seq + c.bytes.length)
    (hb : is_char_boundary c.bytes (st.seqnum - c.seq) = true) :
    (stepData st c).seqnum = c.seq + c.bytes.length := by
  rw [stepData_accept h1 h2 hb]
  simp only [List.length_drop]
  omega

theorem moveToEnd_split (id : Nat) (old : WsWinsize) (w : Option WsWinsize)
    (v2 : List (Nat × WsWinsize)) :
    ∀ v1 : List (Nat × WsWinsize), id ∉ v1.map Prod.fst →
      moveToEnd (v1 ++ (id, old) :: v2) id w = (v1 ++ v2) ++ [(id, w.getD old)] := by
  intro v1
  induction v1 with
  | nil => intro _; simp [moveToEnd]
  | cons p rest ih =>
    intro hnot
    obtain ⟨k, sz⟩ := p
    simp only [List.map_cons, List.mem_cons] at hnot
    push_neg at hnot
    have hk : k ≠ id := fun h => hnot.1 h.symm
    simp [moveToEnd, hk, ih hnot.2]

/-! ### Claim theorems -/

/-- Claim C5: `close_shell(id)` marks an open shell closed, wakes its notifier
and removes `id` from the view; it is a no-op success on an already-closed
shell and fails with NotFound (changing nothing) when the shell is absent. -/
theorem close_shell_spec (s : Session) (id : Nat) :
    (∀ st, lookupShell s.shells id = some st → st.closed = false →
      s.close_shell id = .ok { s with
        shells := updateShell s.shells id { st with closed := true, notified := st.notified + 1 }
        shells_view := s.shells_view.filter fun p => p.1 != id }) ∧
    (∀ st, lookupShell s.shells id = some st → st.closed = true →
      s.close_shell id = .ok s) ∧
    (lookupShell s.shells id = none → s.close_shell id = .error (.notFound id)) := by
  refine ⟨?_, ?_, ?_⟩
  · intro st hl hc
    simp [Session.close_shell, hl, hc]
  · intro st hl hc
    simp [Session.close_shell, hl, hc]
  · intro hl
    simp [Session.close_shell, hl]

/-- Witness for C5: in the three-shell demo session, closing shell 1 marks it
closed (waking the notifier once) and shrinks the view to `[2, 3]`; closing it
a second time is a no-op success; closing the absent shell 9 is NotFound. -/
theorem close_shell_spec_witness :
    (demo3.close_shell 1 = .ok { demo3 with
      shells := [(1, { seqnum := 0, data := [], closed := true, notified := 1 }),
                 (2, ShellState.default), (3, ShellState.default)]
      shells_view := [(2, WsWinsize.default), (3, WsWinsize.default)] }) ∧
    (demo3closed.close_shell 1 = .ok demo3closed) ∧
    (demo3.close_shell 9 = .error (.notFound 9)) := by
  refine ⟨?_, ?_, ?_⟩
  · rw [(close_shell_spec demo3 1).1 ShellState.default (by decide) (by decide)]
    decide
  · exact (close_shell_spec demo3closed 1).2.1
      { seqnum := 0, data := [], closed := true, notified := 1 } (by decide) (by decide)
  · exact (close_shell_spec demo3 9).2.2 (by decide)

/-- Claim C8: `add_shell(id)` fails with AlreadyExists whenever the id is
present (open or closed); otherwise it inserts a fresh default record
(`seqnum = 0`, empty data, not closed) and appends the id with the default
window size `{x = 0, y = 0, rows = 24, cols = 80}` to the view. -/
theorem add_shell_spec (s : Session) (id : Nat) :
    (∀ st, lookupShell s.shells id = some st → s.add_shell id = .error (.alreadyExists id)) ∧
    (lookupShell s.shells id = none →
      s.add_shell id = .ok { s with
        shells := s.shells ++ [(id, { seqnum := 0, data := [], closed := false, notified := 0 })]
        shells_view := s.shells_view ++ [(id, { x := 0, y := 0, rows := 24, cols := 80 })] }) := by
  constructor
  · intro st hl
    simp [Session.add_shell, hl]
  · intro hl
    simp [Session.add_shell, hl]
    exact ⟨rfl, rfl⟩

/-- Witness for C8: adding shell 4 to the demo session succeeds with the
default record and view entry; re-adding the present shell 1 (open) and the
closed shell 1 of `demo3closed` both fail with AlreadyExists. -/
theorem add_shell_spec_witness :
    (demo3.add_shell 4 = .ok { demo3 with
      shells := demo3.shells ++ [(4, { seqnum := 0, data := [], closed := false, notified := 0 })]
      shells_view := demo3.shells_view ++ [(4, { x := 0, y := 0, rows := 24, cols := 80 })] }) ∧
    (demo3.add_shell 1 = .error (.alreadyExists 1)) ∧
    (demo3closed.add_shell 1 = .error (.alreadyExists 1)) := by
  refine ⟨?_, ?_, ?_⟩
  · exact (add_shell_spec demo3 4).2 (by decide)
  · exact (add_shell_spec demo3 1).1 ShellState.default (by decide)
  · exact (add_shell_spec demo3closed 1).1
      { seqnum := 0, data := [], closed := true, notified := 1 } (by decide)

/-- Claim C9: when the acceptance window `seq ≤ seqnum < seq + len` holds on an
open shell but the suffix start `seqnum - seq` is not a UTF-8 character
boundary of `bytes`, `add_data` fails with BadEncoding; the error exit happens
before any write, so seqnum, data and the closed flag are untouched (in this
embedding an `.error` result carries no state change by construction). -/
theorem add_data_bad_encoding (s : Session) (id : Nat) (bytes : List Nat) (seq now : Nat)
    (st : ShellState) (hl : lookupShell s.shells id = some st) (hc : st.closed = false)
    (h1 : seq ≤ st.seqnum) (h2 : st.seqnum < seq + bytes.length)
    (hb : is_char_boundary bytes (st.seqnum - seq) = false) :
    s.add_data id bytes seq now = .error .badEncoding := by
  simp [Session.add_data, hl, hc, h1, h2, strGetFrom_not_boundary hb]

/-- Witness for C9: shell 1 of `sessA` sits at `seqnum = 1`; submitting the
two-byte character `"é"` (`C3 A9`) at `seq = 0` puts the suffix start inside
the character, so the call fails with BadEncoding. -/
theorem add_data_bad_encoding_witness :
    sessA.add_data 1 [195, 169] 0 5 = .error .badEncoding :=
  add_data_bad_encoding sessA 1 [195, 169] 0 5
    { seqnum := 1, data := [(0, [97])], closed := false, notified := 1 }
    (by decide) (by decide) (by decide) (by decide) (by decide)

/-- Claim C6: for an open shell whose id occurs in the view, `move_shell`
removes that view entry and pushes an entry at the end carrying the supplied
size (or the previous one when `none`); it fails with NotFound when the shell
is absent and with Closed when it is closed, leaving the view unchanged. -/
theorem move_shell_spec (s : Session) (id : Nat) (w : Option WsWinsize) :
    (∀ st, lookupShell s.shells id = some st → st.closed = false →
      ∀ v1 old v2, s.shells_view = v1 ++ (id, old) :: v2 → id ∉ v1.map Prod.fst →
        s.move_shell id w = .ok { s with shells_view := (v1 ++ v2) ++ [(id, w.getD old)] }) ∧
    (lookupShell s.shells id = none → s.move_shell id w = .error (.notFound id)) ∧
    (∀ st, lookupShell s.shells id = some st → st.closed = true →
      s.move_shell id w = .error (.closed id)) := by
  refine ⟨?_, ?_, ?_⟩
  · intro st hl hc v1 old v2 hview hnot
    simp [Session.move_shell, hl, hc, hview, moveToEnd_split id old w v2 v1 hnot]
  · intro hl
    simp [Session.move_shell, hl]
  · intro st hl hc
    simp [Session.move_shell, hl, hc]

/-- Witness for C6 (scenario S4): from view `[1, 2, 3]`, `move_shell 1 none`
yields `[2, 3, 1]` keeping the old size; from the resulting session,
`move_shell 2 (some {rows = 10, cols = 10})` yields `[3, 1, 2]` with shell 2 at
the new size; moving the absent shell 9 is NotFound; moving the closed shell 1
of `demo3closed` is Closed. -/
theorem move_shell_spec_witness :
    (demo3.move_shell 1 none = .ok { demo3 with
      shells_view := [(2, WsWinsize.default), (3, WsWinsize.default), (1, WsWinsize.default)] }) ∧
    ({ demo3 with
      shells_view := [(2, WsWinsize.default), (3, WsWinsize.default), (1, WsWinsize.default)]
        }.move_shell 2 (some { x := 0, y := 0, rows := 10, cols := 10 }) = .ok { demo3 with
      shells_view := [(3, WsWinsize.default), (1, WsWinsize.default),
                      (2, { x := 0, y := 0, rows := 10, cols := 10 })] }) ∧
    (demo3.move_shell 9 none = .error (.notFound 9)) ∧
    (demo3closed.move_shell 1 none = .error (.closed 1)) := by
  refine ⟨?_, ?_, ?_, ?_⟩
  · rw [(move_shell_spec demo3 1 none).1 ShellState.default (by decide) (by decide)
      [] WsWinsize.default [(2, WsWinsize.default), (3, WsWinsize.default)] (by decide) (by decide)]
    decide
  · rw [(move_shell_spec { demo3 with
      shells_view := [(2, WsWinsize.default), (3, WsWinsize.default), (1, WsWinsize.default)] }
      2 (some { x := 0, y := 0, rows := 10, cols := 10 })).1 ShellState.default
      (by decide) (by decide)
      [] WsWinsize.default [(3, WsWinsize.default), (1, WsWinsize.default)] (by decide) (by decide)]
    decide
  · exact (move_shell_spec demo3 9 none).2.1 (by decide)
  · exact (move_shell_spec demo3closed 1 none).2.2
      { seqnum := 0, data := [], closed := true, notified := 1 } (by decide) (by decide)

/-- Claim C1 (amended): on an open shell with seqnum `n`, a call
`add_data(id, bytes, seq)` with `seq ≤ n < seq + len` whose suffix start
`n - seq` is a character boundary appends the suffix `bytes[n - seq ..]` as one
new fragment, advances `seqnum` by exactly the suffix's length and wakes the
notifier; with the window condition satisfied but the start inside a character
it fails with BadEncoding and mutates nothing; with the window condition false
it returns success and leaves the session untouched. -/
theorem add_data_behaviour (s : Session) (id : Nat) (bytes : List Nat) (seq now : Nat)
    (st : ShellState) (hl : lookupShell s.shells id = some st) (hc : st.closed = false) :
    (seq ≤ st.seqnum → st.seqnum < seq + bytes.length →
      is_char_boundary bytes (st.seqnum - seq) = true →
      s.add_data id bytes seq now = .ok { s with
        shells := updateShell s.shells id { st with
          data := st.data ++ [(now, bytes.drop (st.seqnum - seq))]
          seqnum := st.seqnum + (bytes.drop (st.seqnum - seq)).length
          notified := st.notified + 1 } }) ∧
    (seq ≤ st.seqnum → st.seqnum < seq + bytes.length →
      is_char_boundary bytes (st.seqnum - seq) = false →
      s.add_data id bytes seq now = .error .badEncoding) ∧
    (¬(seq ≤ st.seqnum ∧ st.seqnum < seq + bytes.length) →
      s.add_data id bytes seq now = .ok s) := by
  refine ⟨?_, ?_, ?_⟩
  · intro h1 h2 hb
    simp [Session.add_data, hl, hc, h1, h2, strGetFrom_boundary hb]
  · intro h1 h2 hb
    simp [Session.add_data, hl, hc, h1, h2, strGetFrom_not_boundary hb]
  · intro h
    simp [Session.add_data, hl, hc, h]

/-- Counterexample to C1 as stated: shell 1 of `sessA` is open at `seqnum = 1`
and the call `add_data(1, "é", 0)` satisfies `seq ≤ n < seq + len`
(`0 ≤ 1 < 2`), so the claim requires the suffix to be appended with success;
the code instead fails with BadEncoding because byte offset 1 falls inside the
two-byte character, and nothing is appended. -/
theorem add_data_accept_iff_counterexample :
    lookupShell sessA.shells 1
      = some { seqnum := 1, data := [(0, [97])], closed := false, notified := 1 } ∧
    (0 ≤ 1 ∧ 1 < 0 + ([195, 169] : List Nat).length) ∧
    sessA.add_data 1 [195, 169] 0 7 = .error .badEncoding := by
  decide

/-- Witness for C1 (scenario S6): on the fresh shell 1 of `demoShell1`
(`seqnum = 0`), `add_data(1, "world", 5)` is a gap and is ignored with
success; `add_data(1, "hello world", 0)` then accepts all 11 bytes as one
fragment, advancing `seqnum` to 11 and waking the notifier once. -/
theorem add_data_behaviour_witness :
    (demoShell1.add_data 1 wBytes 5 3 = .ok demoShell1) ∧
    (demoShell1.add_data 1 hwBytes 0 4 = .ok { demoShell1 with
      shells := [(1, { seqnum := 11, data := [(4, hwBytes)], closed := false, notified := 1 })] }) := by
  constructor
  · exact (add_data_behaviour demoShell1 1 wBytes 5 3 ShellState.default
      (by decide) (by decide)).2.2 (by decide)
  · rw [(add_data_behaviour demoShell1 1 hwBytes 0 4 ShellState.default
      (by decide) (by decide)).1 (by decide) (by decide) (by decide)]
    decide

theorem move_shell_ok_updated {s s' : Session} {id : Nat} {w : Option WsWinsize}
    (h : s.move_shell id w = .ok s') : s'.updated = s.updated := by
  unfold Session.move_shell at h
  cases hl : lookupShell s.shells id with
  | none => rw [hl] at h; exact absurd h (by simp)
  | some st =>
    rw [hl] at h
    by_cases hc : st.closed
    · simp [hc] at h
    · simp [hc] at h
      rw [← h]

/-- Claim C4 (amended): the gateway's frame dispatch never touches the
session's `updated` timestamp — no inbound frame calls `access()` — while
`access()` itself, when called, does refresh `updated` to the current
instant. -/
theorem gateway_never_refreshes_updated (g : Gateway) (msg : WsClient) (now : Nat) :
    (handleClientMsg g msg now).session.updated = g.session.updated ∧
    (Session.access g.session now).updated = now := by
  refine ⟨?_, rfl⟩
  cases msg with
  | create => rfl
  | close id => rfl
  | move id winsize =>
    simp only [handleClientMsg]
    cases h : g.session.move_shell id winsize with
    | error e => rfl
    | ok s =>
      cases winsize with
      | some w => dsimp only; exact move_shell_ok_updated h
      | none => dsimp only; exact move_shell_ok_updated h
  | data id bytes => rfl
  | subscribe id chunknum =>
    simp only [handleClientMsg]
    by_cases h : id ∈ g.subscribed <;> simp [h]

/-- Counterexample to C4 as stated: the fresh gateway `gw0` has
`updated = 0`; processing a `Create` frame at instant 7 would leave
`updated = 7` if the handler refreshed it via `access()`, but the code leaves
it at 0. -/
theorem gateway_refresh_counterexample :
    (handleClientMsg gw0 .create 7).session.updated = 0 ∧ (0 : Nat) ≠ 7 := by
  decide

theorem counter_sessionAfterCalls (n : Nat) :
    (sessionAfterCalls n).counter = (1 + n) % 2 ^ 32 := by
  induction n with
  | zero => simp [sessionAfterCalls, Session.new]
  | succ n ih =>
    show ((sessionAfterCalls n).counter + 1) % 2 ^ 32 = (1 + (n + 1)) % 2 ^ 32
    rw [ih, Nat.mod_add_mod]
    ring_nf

theorem nthIdReturned_eq (k : Nat) : nthIdReturned k = (1 + k) % 2 ^ 32 := by
  unfold nthIdReturned
  exact counter_sessionAfterCalls k

/-- Claim C7 (amended): as long as fewer than `2^32 - 1` ids have been handed
out, `next_id` is strictly increasing, never returns 0 and never repeats — the
call at 0-indexed position `k` returns exactly `1 + k`, so the first call
returns 1; the guarantee is capped by the `u32` wrap-around of the atomic
counter. -/
theorem next_id_spec (i j : Nat) (hij : i < j) (hj : j < 2 ^ 32 - 1) :
    nthIdReturned 0 = 1 ∧ nthIdReturned i = 1 + i ∧ nthIdReturned j = 1 + j ∧
    nthIdReturned i < nthIdReturned j ∧ nthIdReturned i ≠ 0 := by
  rw [nthIdReturned_eq, nthIdReturned_eq, nthIdReturned_eq]
  rw [Nat.mod_eq_of_lt (by norm_num), Nat.mod_eq_of_lt (by omega), Nat.mod_eq_of_lt (by omega)]
  omega

/-- Witness for C7: the first three calls return 1, 2, 3 in strictly
increasing order and never 0. -/
theorem next_id_spec_witness :
    nthIdReturned 0 = 1 ∧ nthIdReturned 1 = 1 + 1 ∧ nthIdReturned 2 = 1 + 2 ∧
    nthIdReturned 1 < nthIdReturned 2 ∧ nthIdReturned 1 ≠ 0 :=
  next_id_spec 1 2 (by decide) (by norm_num)

/-- Counterexample to C7 as stated: the `AtomicU32` counter wraps, so within
one session's lifetime the call at 0-indexed position `2^32 - 1` returns 0
(violating "never returns 0" and strict increase), and the following call
returns 1 again (a repeat of the first call's value). -/
theorem next_id_wrap_counterexample :
    nthIdReturned (2 ^ 32 - 1) = 0 ∧ nthIdReturned (2 ^ 32) = 1 ∧ nthIdReturned 0 = 1 := by
  rw [nthIdReturned_eq, nthIdReturned_eq, nthIdReturned_eq]
  norm_num

theorem shellsInv_applyOp (P : ShellState → Prop)
    (hdef : P ShellState.default)
    (hclose : ∀ st, P st → P { st with closed := true, notified := st.notified + 1 })
    (hdata : ∀ (st : ShellState) (bytes : List Nat) (seq now : Nat) (segment : List Nat),
      seq ≤ st.seqnum → st.seqnum < seq + bytes.length →
      strGetFrom bytes (st.seqnum - seq) = some segment → P st →
      P { st with
        data := st.data ++ [(now, segment)]
        seqnum := st.seqnum + segment.length
        notified := st.notified + 1 })
    (s : Session) (op : Op) (hs : shellsInv P s) : shellsInv P (applyOp s op) := by
  cases op with
  | addShell id =>
    simp only [applyOp, Session.add_shell]
    cases hl : lookupShell s.shells id with
    | some st => exact hs
    | none =>
      intro p hp
      have hp' : p ∈ s.shells ++ [(id, ShellState.default)] := hp
      rcases List.mem_append.mp hp' with h | h
      · exact hs p h
      · simp at h; rw [h]; exact hdef
  | closeShell id =>
    simp only [applyOp, Session.close_shell]
    cases hl : lookupShell s.shells id with
    | none => exact hs
    | some st =>
      cases hc : st.closed with
      | true => simp only [hc, if_true]; exact hs
      | false =>
        simp only [hc, Bool.false_eq_true, if_false]
        intro p hp
        have hp' : p ∈ updateShell s.shells id
            { st with closed := true, notified := st.notified + 1 } := hp
        rcases mem_updateShell hp' with h | h
        · exact hs p h
        · rw [h]; exact hclose st (hs (id, st) (lookupShell_mem hl))
  | moveShell id w =>
    simp only [applyOp, Session.move_shell]
    cases hl : lookupShell s.shells id with
    | none => exact hs
    | some st =>
      cases hc : st.closed with
      | true => simp only [hc, if_true]; exact hs
      | false =>
        simp only [hc, Bool.false_eq_true, if_false]
        intro p hp
        exact hs p hp
  | addData id bytes seq now =>
    simp only [applyOp, Session.add_data]
    cases hl : lookupShell s.shells id with
    | none => exact hs
    | some st =>
      cases hc : st.closed with
      | true => simp only [hc, if_true]; exact hs
      | false =>
        simp only [hc, Bool.false_eq_true, if_false]
        by_cases hwin : seq ≤ st.seqnum ∧ st.seqnum < seq + bytes.length
        · rw [if_pos hwin]
          cases hseg : strGetFrom bytes (st.seqnum - seq) with
          | none => exact hs
          | some segment =>
            dsimp only
            intro p hp
            have hd := hdata st bytes seq now segment hwin.1 hwin.2 hseg
              (hs (id, st) (lookupShell_mem hl))
            rw [hc] at hd
            rcases mem_updateShell hp with h | h
            · exact hs p h
            · rw [h]; exact hd
        · rw [if_neg hwin]; exact hs
  | access now => exact hs
  | nextId => exact hs

theorem shellsInv_runOps (P : ShellState → Prop)
    (hdef : P ShellState.default)
    (hclose : ∀ st, P st → P { st with closed := true, notified := st.notified + 1 })
    (hdata : ∀ (st : ShellState) (bytes : List Nat) (seq now : Nat) (segment : List Nat),
      seq ≤ st.seqnum → st.seqnum < seq + bytes.length →
      strGetFrom bytes (st.seqnum - seq) = some segment → P st →
      P { st with
        data := st.data ++ [(now, segment)]
        seqnum := st.seqnum + segment.length
        notified := st.notified + 1 })
    (ops : List Op) : ∀ s : Session, shellsInv P s → shellsInv P (runOps s ops) := by
  induction ops with
  | nil => intro s hs; exact hs
  | cons op ops ih =>
    intro s hs
    exact ih (applyOp s op) (shellsInv_applyOp P hdef hclose hdata s op hs)

theorem shellsInv_new (P : ShellState → Prop) : shellsInv P Session.new := by
  intro p hp
  simp [Session.new] at hp

theorem fragLenOk_runOps (ops : List Op) : shellsInv fragLenOk (runOps Session.new ops) := by
  refine shellsInv_runOps fragLenOk ?_ ?_ ?_ ops Session.new (shellsInv_new _)
  · rfl
  · intro st h; exact h
  · intro st bytes seq now segment _ _ _ h
    show (fragConcat (st.data ++ [(now, segment)])).length = st.seqnum + segment.length
    rw [fragConcat_append]
    simp only [fragConcat, List.append_nil, List.length_append]
    rw [h]

theorem runCalls_stream (S : List Nat) (cs : List DataCall) :
    ∀ st : ShellState, (∀ c ∈ cs, IsSlice S c) →
      fragConcat st.data = S.take st.seqnum → st.seqnum ≤ S.length →
      fragConcat (runCalls st cs).data = S.take (runCalls st cs).seqnum ∧
        (runCalls st cs).seqnum ≤ S.length := by
  induction cs with
  | nil => intro st _ h1 h2; exact ⟨h1, h2⟩
  | cons c cs ih =>
    intro st hslice h1 h2
    have hc := hslice c (List.mem_cons_self c cs)
    have hrest : ∀ c' ∈ cs, IsSlice S c' := fun c' h => hslice c' (List.mem_cons_of_mem c h)
    rw [show runCalls st (c :: cs) = runCalls (stepData st c) cs from rfl]
    by_cases hwin : c.seq ≤ st.seqnum ∧ st.seqnum < c.seq + c.bytes.length
    · cases hb : is_char_boundary c.bytes (st.seqnum - c.seq) with
      | false =>
        rw [stepData_bad_boundary hwin hb]
        exact ih st hrest h1 h2
      | true =>
        have hkey : c.seq + (st.seqnum - c.seq) = st.seqnum := by omega
        have hseg : c.bytes.drop (st.seqnum - c.seq)
            = (S.drop st.seqnum).take (c.bytes.length - (st.seqnum - c.seq)) := by
          conv_lhs => rw [hc.1]
          rw [List.drop_take, List.drop_drop, hkey]
        have hlen : (c.bytes.drop (st.seqnum - c.seq)).length
            = c.bytes.length - (st.seqnum - c.seq) := List.length_drop _ _
        apply ih _ hrest
        · rw [stepData_accept hwin.1 hwin.2 hb]
          dsimp only
          rw [fragConcat_append, h1, hlen]
          simp only [fragConcat, List.append_nil]
          rw [hseg, ← List.take_add]
        · rw [stepData_accept_seqnum hwin.1 hwin.2 hb]
          exact hc.2
    · rw [stepData_not_in_range hwin]
      exact ih st hrest h1 h2

/-- Claim C2: (a) in every session reachable from `Session.new` by any
sequence of operations, every shell's concatenated fragments have length
exactly `seqnum`; (b) when every submitted `add_data` payload is a slice of a
single ideal stream `S` (which is what makes the union of the submitted
intervals well defined), the concatenated fragments equal `S` restricted to
positions `[0, seqnum)`. -/
theorem byte_accounting :
    (∀ ops : List Op, ∀ p ∈ (runOps Session.new ops).shells,
      (fragConcat p.2.data).length = p.2.seqnum) ∧
    (∀ (S : List Nat) (cs : List DataCall), (∀ c ∈ cs, IsSlice S c) →
      fragConcat (runCalls ShellState.default cs).data
        = S.take (runCalls ShellState.default cs).seqnum) := by
  constructor
  · intro ops p hp
    exact fragLenOk_runOps ops p hp
  · intro S cs h
    exact (runCalls_stream S cs ShellState.default h rfl (Nat.zero_le _)).1

/-- Witness for C2: (a) after creating shell 1 and ingesting `"hi"`, the
stored shell's concatenated fragments have length 2 = seqnum; (b) scenario S2:
submitting `("he", 0)`, `("llo", 2)`, `("hello!", 0)` — all slices of the
ideal stream `"hello!"` — ends with concatenated fragments equal to
`"hello!".take seqnum`. -/
theorem byte_accounting_witness :
    ((fragConcat ((1 : Nat),
        ({ seqnum := 2, data := [(0, [104, 105])], closed := false, notified := 1 }
          : ShellState)).2.data).length
      = ((1 : Nat),
        ({ seqnum := 2, data := [(0, [104, 105])], closed := false, notified := 1 }
          : ShellState)).2.seqnum) ∧
    (fragConcat (runCalls ShellState.default
        [⟨[104, 101], 0, 0⟩, ⟨[108, 108, 111], 2, 1⟩,
         ⟨[104, 101, 108, 108, 111, 33], 0, 2⟩]).data
      = [104, 101, 108, 108, 111, 33].take (runCalls ShellState.default
        [⟨[104, 101], 0, 0⟩, ⟨[108, 108, 111], 2, 1⟩,
         ⟨[104, 101, 108, 108, 111, 33], 0, 2⟩]).seqnum) := by
  constructor
  · exact byte_accounting.1 [.addShell 1, .addData 1 [104, 105] 0 0]
      (1, { seqnum := 2, data := [(0, [104, 105])], closed := false, notified := 1 })
      (by decide)
  · exact byte_accounting.2 [104, 101, 108, 108, 111, 33]
      [⟨[104, 101], 0, 0⟩, ⟨[108, 108, 111], 2, 1⟩,
       ⟨[104, 101, 108, 108, 111, 33], 0, 2⟩] (by decide)

/-- Claim C10: (a) every fragment stored in any shell of any session reachable
from `Session.new` is non-empty; (b) a call with empty `bytes` is never
accepted (the state is unchanged); (c) an accepted call appends exactly one
fragment, of length `seq + len - seqnum ≥ 1`. -/
theorem fragments_nonempty :
    (∀ ops : List Op, ∀ p ∈ (runOps Session.new ops).shells, ∀ f ∈ p.2.data, f.2 ≠ []) ∧
    (∀ (st : ShellState) (c : DataCall), c.bytes = [] → stepData st c = st) ∧
    (∀ (st : ShellState) (c : DataCall),
      c.seq ≤ st.seqnum → st.seqnum < c.seq + c.bytes.length →
      is_char_boundary c.bytes (st.seqnum - c.seq) = true →
      (stepData st c).data = st.data ++ [(c.now, c.bytes.drop (st.seqnum - c.seq))] ∧
      (c.bytes.drop (st.seqnum - c.seq)).length = c.seq + c.bytes.length - st.seqnum ∧
      1 ≤ c.seq + c.bytes.length - st.seqnum) := by
  refine ⟨?_, ?_, ?_⟩
  · intro ops
    refine shellsInv_runOps fragsNonempty ?_ ?_ ?_ ops Session.new (shellsInv_new _)
    · intro f hf; simp [ShellState.default] at hf
    · intro st h f hf; exact h f hf
    · intro st bytes seq now segment h1 h2 hseg h f hf
      have hf' : f ∈ st.data ++ [(now, segment)] := hf
      rcases List.mem_append.mp hf' with hmem | hmem
      · exact h f hmem
      · simp only [List.mem_singleton] at hmem
        rw [hmem]
        show segment ≠ []
        rw [strGetFrom_some hseg]
        intro hcon
        have hz : (bytes.drop (st.seqnum - seq)).length = 0 := by rw [hcon]; rfl
        rw [List.length_drop] at hz
        omega
  · intro st c hb
    apply stepData_not_in_range
    rintro ⟨_, h2⟩
    rw [hb] at h2
    simp at h2
    omega
  · intro st c h1 h2 hbnd
    refine ⟨?_, ?_, ?_⟩
    · rw [stepData_accept h1 h2 hbnd]
    · rw [List.length_drop]; omega
    · omega

/-- Witness for C10: the single fragment stored after creating shell 1 and
ingesting the two bytes `"hi"` is non-empty. -/
theorem fragments_nonempty_witness :
    ((0 : Nat), ([104, 105] : List Nat)).2 ≠ ([] : List Nat) :=
  fragments_nonempty.1 [.addShell 1, .addData 1 [104, 105] 0 0]
    (1, { seqnum := 2, data := [(0, [104, 105])], closed := false, notified := 1 })
    (by decide) (0, [104, 105]) (by decide)

theorem safe_bound (p : List DataCall) : ∀ st : ShellState, safeRun st p = true →
    ∀ c ∈ p, c.seq + c.bytes.length ≤ (runCalls st p).seqnum := by
  induction p with
  | nil => intro st _ c hc; simp at hc
  | cons c0 cs ih =>
    intro st hsafe c hc
    have h1 : safeAtB st c0 = true ∧ safeRun (stepData st c0) cs = true := by
      simpa [safeRun, Bool.and_eq_true] using hsafe
    rcases List.mem_cons.mp hc with rfl | hmem
    · show c.seq + c.bytes.length ≤ (runCalls (stepData st c) cs).seqnum
      have hmono := seqnum_le_runCalls (stepData st c) cs
      have halt : c.seq + c.bytes.length ≤ st.seqnum ∨
          ((c.seq ≤ st.seqnum ∧ st.seqnum < c.seq + c.bytes.length) ∧
            is_char_boundary c.bytes (st.seqnum - c.seq) = true) := by
        simpa [safeAtB, Bool.or_eq_true, Bool.and_eq_true, decide_eq_true_eq] using h1.1
      rcases halt with hstale | hacc
      · have hst := seqnum_le_stepData st c
        omega
      · have hacc' := stepData_accept_seqnum hacc.1.1 hacc.1.2 hacc.2
        omega
    · exact ih (stepData st c0) h1.2 c hmem

theorem replay_noop (p : List DataCall) : ∀ st : ShellState,
    (∀ c ∈ p, c.seq + c.bytes.length ≤ st.seqnum) → runCalls st p = st := by
  induction p with
  | nil => intro st _; rfl
  | cons c cs ih =>
    intro st hb
    have h0 := hb c (List.mem_cons_self c cs)
    have hstep : stepData st c = st := by
      apply stepData_not_in_range
      rintro ⟨_, h2⟩
      omega
    show runCalls (stepData st c) cs = st
    rw [hstep]
    exact ih st fun c' hc' => hb c' (List.mem_cons_of_mem c hc')

/-- Claim C3 (amended): inserting a repetition of a prefix whose calls were
each either accepted or ignored as already-ingested duplicates (no call was a
gap and none failed with BadEncoding) yields exactly the same final shell
state as the schedule without the repetition: every replayed call is stale by
then and is ignored. -/
theorem replay_prefix_idempotent (st : ShellState) (p q : List DataCall)
    (hsafe : safeRun st p = true) :
    runCalls st (p ++ p ++ q) = runCalls st (p ++ q) := by
  rw [runCalls_append, runCalls_append, runCalls_append]
  congr 1
  exact replay_noop p (runCalls st p) (safe_bound p st hsafe)

/-- Witness for C3: repeating the prefix `[("he", 0)]` (accepted in full)
before the schedule `[("he", 0), ("llo", 2)]` gives the same final state. -/
theorem replay_prefix_idempotent_witness :
    runCalls ShellState.default
        ([⟨[104, 101], 0, 0⟩] ++ [⟨[104, 101], 0, 0⟩] ++ [⟨[108, 108, 111], 2, 1⟩])
      = runCalls ShellState.default ([⟨[104, 101], 0, 0⟩] ++ [⟨[108, 108, 111], 2, 1⟩]) :=
  replay_prefix_idempotent ShellState.default [⟨[104, 101], 0, 0⟩]
    [⟨[108, 108, 111], 2, 1⟩] (by decide)

/-- Counterexample to C3 as stated: the schedule `[("world", 5), ("hello", 0)]`
ends at `seqnum = 5` (the first call is a gap and is ignored); repeating that
whole prefix makes the replayed `("world", 5)` land exactly on the new seqnum
and be accepted, ending at `seqnum = 10` — a different final state. -/
theorem replay_counterexample :
    runCalls ShellState.default
        [⟨wBytes, 5, 0⟩, ⟨[104, 101, 108, 108, 111], 0, 1⟩,
         ⟨wBytes, 5, 0⟩, ⟨[104, 101, 108, 108, 111], 0, 1⟩]
      ≠ runCalls ShellState.default
        [⟨wBytes, 5, 0⟩, ⟨[104, 101, 108, 108, 111], 0, 1⟩] := by
  decide

end Sshx
